import Mathlib

/-!
# Verification of the job-matching engine (`app/services/ml/recommendation_engine.py`)

A shallow embedding of the `RecommendationEngine` core: job postings are
records of the dictionary fields the engine reads, Python strings are Lean
`String`s, Python floats are modelled as `ℚ` (floating-point representation
error is not modelled; no claim below depends on it), and the two external
sources of nondeterminism — the similarity row produced by
`cosine_similarity` over the TF-IDF matrix, and the stream of
`random.uniform(70.0, 95.0)` draws — are passed in as explicit parameters.
A vectorization step that raises is modelled by an `Except.error` parameter,
mirroring the `try/except` in `_match_jobs_to_profile`.
-/

/- Batteries marks the `Rat` field operations `@[irreducible]`; restore the
default reducibility so that concrete score computations evaluate. -/
set_option allowUnsafeReducibility true in
attribute [semireducible] Rat.mul Rat.add Rat.sub Rat.inv

namespace RecEngine

/-- A job posting dictionary, restricted to the fields the engine reads.
A missing field is the empty string (Python `job.get(k, '')`).  The
`match_score` field is present on every posting the engine returns; fetched
postings carry a dummy value that every scoring path overwrites before the
posting is handed to the caller. -/
structure Job where
  id : String
  title : String
  description : String
  content : String
  match_score : ℚ
deriving DecidableEq, Repr

/-! ## Python string primitives

`str.strip` / `str.split()` / `str.lower` / the `in` substring test,
re-implemented over `List Char`.  (Python handles a larger Unicode
whitespace class and non-ASCII case mapping; every string any claim
evaluates is ASCII.) -/

/-- Python `str.strip()`: drop whitespace from both ends. -/
def pyStrip (s : String) : String :=
  String.mk (((s.toList.dropWhile Char.isWhitespace).reverse.dropWhile
    Char.isWhitespace).reverse)

/-- Accumulator pass for `pySplit`: current partial word is kept reversed. -/
def wordsAux : List Char → List Char → List (List Char)
  | [], acc => if acc.isEmpty then [] else [acc.reverse]
  | c :: cs, acc =>
      if c.isWhitespace then
        if acc.isEmpty then wordsAux cs [] else acc.reverse :: wordsAux cs []
      else wordsAux cs (c :: acc)

/-- Python `str.split()` with no argument: split on whitespace runs,
discarding empty tokens. -/
def pySplit (s : String) : List String :=
  (wordsAux s.toList []).map String.mk

/-- Python `str.lower()` (ASCII case mapping). -/
def pyLower (s : String) : String :=
  String.mk (s.toList.map Char.toLower)

/-- `infixAt n h`: does `n` occur as a contiguous run inside `h`? -/
def infixAt (n : List Char) : List Char → Bool
  | [] => n.isEmpty
  | c :: t => n.isPrefixOf (c :: t) || infixAt n t

/-- Python `needle in hay` substring test. -/
def containsSub (hay needle : String) : Bool :=
  infixAt needle.toList hay.toList

/-! ## Python `round(x, 1)`

Python rounds half to even.  `roundTiesEven x` is the integer nearest to
`x`, ties going to the even integer; `round1 x` rounds to one decimal. -/

/-- `⌊x⌋` computed on the rational's representation (kernel-reducible). -/
def ratFloor (x : ℚ) : ℤ := x.num / x.den

/-- Nearest integer, ties to even. -/
def roundTiesEven (x : ℚ) : ℤ :=
  if x - ratFloor x < 1/2 then ratFloor x
  else if 1/2 < x - ratFloor x then ratFloor x + 1
  else if ratFloor x % 2 = 0 then ratFloor x else ratFloor x + 1

/-- Python `round(x, 1)`. -/
def round1 (x : ℚ) : ℚ :=
  (roundTiesEven (x * 10) : ℚ) / 10

/-! ## Stable descending sort

Python's `sorted(key=score, reverse=True)` is a stable sort: postings are
ordered by descending `match_score`, equal scores keeping their input
order.  Any stable sort computes the same list, so we embed it as a stable
insertion sort. -/

/-- Insert `x` into `l`, placing it before the first element whose score is
`≤` its own (so, among equal scores, earlier input elements stay first). -/
def insertDesc (x : Job) : List Job → List Job
  | [] => [x]
  | y :: ys =>
      if y.match_score ≤ x.match_score then x :: y :: ys
      else y :: insertDesc x ys

/-- Stable sort by descending `match_score`
(= Python `sorted(jobs, key=lambda x: x['match_score'], reverse=True)`). -/
def sortDesc (l : List Job) : List Job :=
  l.foldr insertDesc []

/-! ## `_match_jobs_to_profile` and `_fallback_job_ranking` -/

/-- Lines 258–268: the matching text of a posting — the `content` field,
else `f"{title} {desc}".strip()`. -/
def contentOf (j : Job) : String :=
  if j.content ≠ "" then j.content
  else pyStrip (j.title ++ " " ++ j.description)

/-- A posting is kept for scoring iff its matching text is non-empty. -/
def usable (j : Job) : Bool := contentOf j ≠ ""

/-- Lines 255–268: `valid_jobs`, the postings with usable content, in
fetch order. -/
def validJobs (jobs : List Job) : List Job := jobs.filter usable

/-- Lines 304–310: attach `min(round(score * 100, 1), 100.0)` to each valid
posting, where `score` is the posting's cosine-similarity entry
(`zip(valid_jobs, similarities)`). -/
def scoreJobs (valid : List Job) (sims : List ℚ) : List Job :=
  (valid.zip sims).map fun p =>
    { p.1 with match_score := min (round1 (p.2 * 100)) 100 }

/-- `_fallback_job_ranking` (lines 327–343): attach `round(r, 1)` for the
posting's `random.uniform(70.0, 95.0)` draw `r`, sort descending, take the
first `n`. -/
def fallbackJobRanking (jobs : List Job) (n : ℕ) (draws : List ℚ) : List Job :=
  (sortDesc ((jobs.zip draws).map fun p => { p.1 with match_score := round1 p.2 })).take n

/-- `_match_jobs_to_profile` (lines 234–325).  `vec` is the outcome of
`TfidfVectorizer(...).fit_transform` plus `cosine_similarity`: an `.ok`
similarity row, or `.error` when that computation raises — in which case the
`except` clause routes to `_fallback_job_ranking` with the given `draws`. -/
def matchJobsToProfile (profile : String) (jobs : List Job) (n : ℕ)
    (vec : Except Unit (List ℚ)) (draws : List ℚ) : List Job :=
  if profile = "" ∨ jobs.isEmpty then []
  else if (validJobs jobs).isEmpty then []
  else
    match vec with
    | .ok sims => (sortDesc (scoreJobs (validJobs jobs) sims)).take n
    | .error _ => fallbackJobRanking (validJobs jobs) n draws

/-! ## Education fallback keywords (`get_job_recommendations`, lines 68–88)

When both `skills` and `experience` are empty, the engine derives search
keywords from the education entries. -/

/-- Lines 72–76: one education entry's contribution.  The first word of
`edu.strip().split()` is appended only when that split has **more than
one** part (`if len(edu_parts) > 1`). -/
def eduKeyword (edu : String) : List String :=
  if edu = "" then []
  else if pyStrip edu = "" then []
  else
    match pySplit (pyStrip edu) with
    | p0 :: _ :: _ => [p0]
    | _ => []

/-- The `for edu in education` accumulation loop. -/
def eduKeywordsList : List String → List String
  | [] => []
  | e :: es => eduKeyword e ++ eduKeywordsList es

/-- Lines 71–80: the fallback keywords — education-derived words, or the
literal `["entry", "level", "job"]` when no entry contributed. -/
def fallbackSearchKeywords (education : List String) : List String :=
  let fk := eduKeywordsList education
  if fk.isEmpty then ["entry", "level", "job"] else fk

/-! ## Pagination state (`get_job_recommendations`, lines 127–133) -/

/-- One `_pagination_state` entry. -/
structure PagInfo where
  current_page : ℕ
  has_more : Bool
deriving DecidableEq, Repr

/-- The default used by `_pagination_state.get(cache_key, {...})`. -/
def defaultPag : PagInfo := { current_page := 0, has_more := true }

/-- Lines 129–132: bump `current_page` to `max(old, page)` and set
`has_more = len(available_jobs) > 0`. -/
def updatePagination (prior : Option PagInfo) (page fetchedCount : ℕ) : PagInfo :=
  let p := prior.getD defaultPag
  { current_page := max p.current_page page, has_more := decide (0 < fetchedCount) }

/-- The literal `limit=10` passed to every fetch inside
`get_job_recommendations` (lines 86, 98, 111). -/
def recFetchLimit : ℕ := 10

/-! ## The `_job_cache` update, with object identity

Python's cache update aliases the stored `list` object: on later pages it
retrieves the stored list and `append`s to it in place.  To talk about
"mutated in place" versus "replaced wholesale" we model the heap
explicitly: `heap` is the store of allocated list objects (a reference is
an index), and `_job_cache` maps keys to references. -/

structure EngineState where
  heap : List (List Job)
  jobCache : List (String × ℕ)
deriving DecidableEq, Repr

/-- Look a key up in the cache dictionary. -/
def lookupRef (c : List (String × ℕ)) (k : String) : Option ℕ :=
  (c.find? (fun p => p.1 == k)).map (fun p => p.2)

/-- Python dict assignment `c[k] = r`. -/
def setRef (c : List (String × ℕ)) (k : String) (r : ℕ) : List (String × ℕ) :=
  if c.any (fun p => p.1 == k) then
    c.map (fun p => if p.1 == k then (k, r) else p)
  else c ++ [(k, r)]

/-- Allocate a fresh list object holding `l` and bind `k` to it. -/
def allocEntry (st : EngineState) (k : String) (l : List Job) : EngineState :=
  { heap := st.heap ++ [l], jobCache := setRef st.jobCache k st.heap.length }

/-- Dereference a stored list object. -/
def heapGet (st : EngineState) (r : ℕ) : List Job := st.heap.getD r []

/-- Lines 143–147: `existing_ids = {job['id'] for job in existing_jobs}`
is computed once, then each new posting whose id is not in it is
`append`ed.  (Two new postings sharing an id are both appended.) -/
def appendDedup (existing newJobs : List Job) : List Job :=
  existing ++ newJobs.filter fun j => !((existing.map fun e => e.id).contains j.id)

/-- The cache update of `get_job_recommendations` (lines 135–150): on the
first page or a forced refresh the key is bound to the freshly built
`recommendations` list; otherwise, when the key is present, the stored
list object itself is appended to (`existing_jobs.append(job)` mutates the
object `_job_cache[cache_key]` already refers to; the re-assignment on
line 148 re-stores the same object). -/
def updateRecCache (st : EngineState) (key : String) (page : ℕ)
    (force : Bool) (recs : List Job) : EngineState :=
  if page = 1 ∨ force = true then allocEntry st key recs
  else
    match lookupRef st.jobCache key with
    | some r => { st with heap := st.heap.set r (appendDedup (heapGet st r) recs) }
    | none => allocEntry st key recs

/-- The cache update of `search_jobs` (lines 523–541): identical shape,
with no `force_refresh` parameter. -/
def updateSearchCache (st : EngineState) (key : String) (page : ℕ)
    (sortedJobs : List Job) : EngineState :=
  if page = 1 then allocEntry st key sortedJobs
  else
    match lookupRef st.jobCache key with
    | some r => { st with heap := st.heap.set r (appendDedup (heapGet st r) sortedJobs) }
    | none => allocEntry st key sortedJobs

/-! ## `search_jobs` (lines 444–546) -/

/-- Line 484: `[term.strip() for term in query.split() if term.strip()]`. -/
def searchKeywordsOf (query : String) : List String :=
  ((pySplit query).map pyStrip).filter fun t => t ≠ ""

/-- Lines 503–515: term-counting relevance — `+5` per search term occurring
in the lowered title, `+1` per search term occurring in the lowered
`content`. -/
def searchScore (terms : List String) (j : Job) : ℕ :=
  terms.foldl
    (fun acc term =>
      let t := pyLower term
      let acc1 := if containsSub (pyLower j.title) t then acc + 5 else acc
      if containsSub (pyLower j.content) t then acc1 + 1 else acc1)
    0

/-- Line 518: `job['match_score'] = min(relevance * 10, 100.0)`. -/
def assignSearchScores (terms : List String) (jobs : List Job) : List Job :=
  jobs.map fun j =>
    { j with match_score := ((min (searchScore terms j * 10) 100 : ℕ) : ℚ) }

/-- Look a key up in the value-level cache mapping. -/
def lookupList (cache : List (String × List Job)) (k : String) : Option (List Job) :=
  (cache.find? (fun p => p.1 == k)).map (fun p => p.2)

/-- `search_jobs`, lines 467–546, as a function of the cached mapping and
of the postings `fetched` that the job source would return.  On the fetch
path the fetched postings are scored by term counting and sorted; on the
cache-hit path (`fetch_more` false, `page ≠ 1`, key present, at least
`page * size` postings cached) the **whole** cached list is returned.
With no key, or the key absent, and nothing to fetch, the result is `[]`
(line 546).  The cache write-back is `updateSearchCache` above. -/
def searchJobs (cache : List (String × List Job)) (key : Option String)
    (query : String) (page size : ℕ) (fetchMore : Bool)
    (fetched : List Job) : List Job :=
  if fetchMore || page == 1 then
    sortDesc (assignSearchScores (searchKeywordsOf query) fetched)
  else
    match key with
    | none => []
    | some k =>
      match lookupList cache k with
      | none => []
      | some cached =>
          if page * size ≤ cached.length then cached
          else sortDesc (assignSearchScores (searchKeywordsOf query) fetched)

/-! ## `get_job_stats` employment-type counting (lines 643–658) -/

/-- Line 634 / 653: the lowered `title + ' ' + description` text. -/
def lowerTitleDesc (j : Job) : String :=
  pyLower (j.title ++ " " ++ j.description)

/-- Lines 644–650: the employment-type keyword groups, in iteration
order. -/
def jobTypeKeywords : List (String × List String) :=
  [("Full-time", ["full time", "full-time", "permanent"]),
   ("Part-time", ["part time", "part-time"]),
   ("Contract", ["contract", "temporary", "contractor"]),
   ("Freelance", ["freelance", "freelancer"]),
   ("Internship", ["intern", "internship"])]

/-- Lines 652–658: how many postings increment one group's counter.  The
inner `break` fires after the first keyword of the group that occurs in
the posting's text, so a posting increments each group at most once. -/
def jobTypeCount (jobs : List Job) (kws : List String) : ℕ :=
  (jobs.filter fun j => kws.any fun kw => containsSub (lowerTitleDesc j) kw).length

/-- The `job_types` statistic: every group's counter after the loop. -/
def jobTypeCounts (jobs : List Job) : List (String × ℕ) :=
  jobTypeKeywords.map fun g => (g.1, jobTypeCount jobs g.2)

/-! ## Supporting lemmas -/

theorem ratFloor_eq (x : ℚ) : ratFloor x = ⌊x⌋ :=
  Rat.floor_def.symm

theorem le_roundTiesEven (n : ℤ) (x : ℚ) (h : (n : ℚ) ≤ x) :
    n ≤ roundTiesEven x := by
  have hf : n ≤ ⌊x⌋ := Int.le_floor.mpr h
  unfold roundTiesEven
  rw [ratFloor_eq]
  split_ifs <;> omega

theorem roundTiesEven_le (n : ℤ) (x : ℚ) (h : x ≤ (n : ℚ)) :
    roundTiesEven x ≤ n := by
  have hf : ⌊x⌋ ≤ n := (Int.floor_le_floor h).trans_eq (Int.floor_intCast n)
  unfold roundTiesEven
  rw [ratFloor_eq]
  split_ifs with h1 h2 h3
  · exact hf
  all_goals
  · -- in these branches `1/2 ≤ x - ⌊x⌋`, so `⌊x⌋ < n`
    have hfl : (⌊x⌋ : ℚ) ≤ x := Int.floor_le x
    have hhalf : (1 : ℚ) / 2 ≤ x - (⌊x⌋ : ℚ) := le_of_not_lt h1
    have hlt : (⌊x⌋ : ℚ) < (n : ℚ) := by linarith
    have : ⌊x⌋ < n := by exact_mod_cast hlt
    omega

theorem le_round1 (n : ℤ) (x : ℚ) (h : (n : ℚ) ≤ x) : (n : ℚ) ≤ round1 x := by
  have h10 : ((n * 10 : ℤ) : ℚ) ≤ x * 10 := by push_cast; linarith
  have := le_roundTiesEven (n * 10) (x * 10) h10
  have hc : ((n * 10 : ℤ) : ℚ) ≤ (roundTiesEven (x * 10) : ℚ) := by exact_mod_cast this
  unfold round1
  rw [le_div_iff₀ (by norm_num : (0:ℚ) < 10)]
  push_cast at hc ⊢
  linarith

theorem round1_le (n : ℤ) (x : ℚ) (h : x ≤ (n : ℚ)) : round1 x ≤ (n : ℚ) := by
  have h10 : x * 10 ≤ ((n * 10 : ℤ) : ℚ) := by push_cast; linarith
  have := roundTiesEven_le (n * 10) (x * 10) h10
  have hc : (roundTiesEven (x * 10) : ℚ) ≤ ((n * 10 : ℤ) : ℚ) := by exact_mod_cast this
  unfold round1
  rw [div_le_iff₀ (by norm_num : (0:ℚ) < 10)]
  push_cast at hc ⊢
  linarith

/-- The descending-score order the engine sorts by. -/
def scoreGE (a b : Job) : Prop := b.match_score ≤ a.match_score

theorem length_insertDesc (x : Job) (l : List Job) :
    (insertDesc x l).length = l.length + 1 := by
  induction l with
  | nil => rfl
  | cons y ys ih =>
      unfold insertDesc
      split_ifs <;> simp [ih]

theorem length_sortDesc (l : List Job) : (sortDesc l).length = l.length := by
  induction l with
  | nil => rfl
  | cons x xs ih =>
      show (insertDesc x (sortDesc xs)).length = xs.length + 1
      rw [length_insertDesc, ih]

theorem mem_insertDesc (a x : Job) (l : List Job) :
    a ∈ insertDesc x l ↔ a = x ∨ a ∈ l := by
  induction l with
  | nil => simp [insertDesc]
  | cons y ys ih =>
      unfold insertDesc
      split_ifs <;> simp [ih] <;> tauto

theorem mem_sortDesc (a : Job) (l : List Job) : a ∈ sortDesc l ↔ a ∈ l := by
  induction l with
  | nil => simp [sortDesc]
  | cons x xs ih =>
      show a ∈ insertDesc x (sortDesc xs) ↔ _
      rw [mem_insertDesc]
      simp [ih]

theorem pairwise_insertDesc (x : Job) (l : List Job)
    (h : List.Pairwise scoreGE l) : List.Pairwise scoreGE (insertDesc x l) := by
  induction l with
  | nil => simp [insertDesc, List.pairwise_singleton]
  | cons y ys ih =>
      rw [List.pairwise_cons] at h
      obtain ⟨hy, hys⟩ := h
      unfold insertDesc
      split_ifs with hle
      · -- `x` goes first: it dominates `y` and, through `y`, all of `ys`
        rw [List.pairwise_cons]
        refine ⟨?_, List.pairwise_cons.mpr ⟨hy, hys⟩⟩
        intro b hb
        rcases List.mem_cons.mp hb with rfl | hb
        · exact hle
        · exact le_trans (hy b hb) hle
      · rw [List.pairwise_cons]
        refine ⟨?_, ih hys⟩
        intro b hb
        rcases (mem_insertDesc b x ys).mp hb with rfl | hb
        · exact le_of_lt (lt_of_not_le hle)
        · exact hy b hb

theorem pairwise_sortDesc (l : List Job) : List.Pairwise scoreGE (sortDesc l) := by
  induction l with
  | nil => simp [sortDesc]
  | cons x xs ih => exact pairwise_insertDesc x (sortDesc xs) ih

theorem filter_insertDesc (q : ℚ) (x : Job) (l : List Job) :
    (insertDesc x l).filter (fun j => decide (j.match_score = q)) =
      if x.match_score = q then
        x :: l.filter (fun j => decide (j.match_score = q))
      else l.filter (fun j => decide (j.match_score = q)) := by
  induction l with
  | nil =>
      by_cases hx : x.match_score = q <;> simp [insertDesc, hx]
  | cons y ys ih =>
      by_cases hx : x.match_score = q
      · by_cases hy : y.match_score = q
        · -- both scores are `q`, so `insertDesc` puts `x` first
          have hle : y.match_score ≤ x.match_score := by rw [hx, hy]
          simp only [insertDesc, if_pos hle]
          simp [List.filter_cons, hx, hy]
        · by_cases hle : y.match_score ≤ x.match_score
          · simp only [insertDesc, if_pos hle]
            simp [List.filter_cons, hx, hy]
          · simp only [insertDesc, if_neg hle]
            simp [List.filter_cons, hx, hy, ih]
      · by_cases hle : y.match_score ≤ x.match_score
        · simp only [insertDesc, if_pos hle]
          simp [List.filter_cons, hx]
        · simp only [insertDesc, if_neg hle]
          by_cases hy : y.match_score = q <;>
            simp [List.filter_cons, hx, hy, ih]

theorem filter_sortDesc (q : ℚ) (l : List Job) :
    (sortDesc l).filter (fun j => decide (j.match_score = q)) =
      l.filter (fun j => decide (j.match_score = q)) := by
  induction l with
  | nil => rfl
  | cons x xs ih =>
      show (insertDesc x (sortDesc xs)).filter _ = _
      rw [filter_insertDesc]
      by_cases hx : x.match_score = q <;> simp [hx, ih]

theorem filter_take (p : Job → Bool) (l : List Job) (n : ℕ) :
    ∃ k, (l.take n).filter p = (l.filter p).take k := by
  induction l generalizing n with
  | nil => exact ⟨0, by simp⟩
  | cons x xs ih =>
      cases n with
      | zero => exact ⟨0, by simp⟩
      | succ m =>
          obtain ⟨k, hk⟩ := ih m
          by_cases hx : p x
          · exact ⟨k + 1, by simp [hx, hk]⟩
          · exact ⟨k, by simp [hx, hk]⟩

theorem length_scoreJobs (valid : List Job) (sims : List ℚ) :
    (scoreJobs valid sims).length = min valid.length sims.length := by
  simp [scoreJobs]

theorem mem_scoreJobs (j : Job) (valid : List Job) (sims : List ℚ)
    (h : j ∈ scoreJobs valid sims) :
    ∃ s ∈ sims, j.match_score = min (round1 (s * 100)) 100 := by
  unfold scoreJobs at h
  obtain ⟨p, hp, rfl⟩ := List.mem_map.mp h
  exact ⟨p.2, List.of_mem_zip hp |>.2, rfl⟩

theorem mem_fallbackScored (j : Job) (jobs : List Job) (draws : List ℚ)
    (h : j ∈ (jobs.zip draws).map fun p => { p.1 with match_score := round1 p.2 }) :
    ∃ r ∈ draws, j.match_score = round1 r := by
  obtain ⟨p, hp, rfl⟩ := List.mem_map.mp h
  exact ⟨p.2, List.of_mem_zip hp |>.2, rfl⟩

/-! ## Concrete postings used by witnesses and counterexamples -/

def jobA : Job :=
  { id := "a", title := "Python Engineer", description := "Build things",
    content := "", match_score := 0 }

def jobB : Job :=
  { id := "b", title := "Chef", description := "Cook food", content := "", match_score := 0 }

def jobFT : Job :=
  { id := "c", title := "Permanent contract intern role", description := "",
    content := "", match_score := 0 }

/-- A one-entry engine state: key `"k"` bound to the object at reference 0,
which holds `[jobA]`. -/
def st0 : EngineState := { heap := [[jobA]], jobCache := [("k", 0)] }

theorem listIsEmptyIff {α : Type} (l : List α) : l.isEmpty = true ↔ l = [] := by
  cases l <;> simp

/-! ## Claim theorems -/

/-- C1: for every `N ≥ 0` and every posting list with at least one posting
of usable content, the TF-IDF ranking path of `_match_jobs_to_profile`
(non-empty profile, one similarity per usable posting) returns exactly
`min(N, number of usable postings)` items, in non-increasing `match_score`
order, with equal scores kept in the original fetch order (each score
class of the result is an initial segment of that score class of the
scored fetch-ordered list). -/
theorem c1_ranker_count_sorted_stable
    (profile : String) (jobs : List Job) (n : ℕ) (sims draws : List ℚ)
    (hp : profile ≠ "") (hv : validJobs jobs ≠ [])
    (hlen : sims.length = (validJobs jobs).length) :
    (matchJobsToProfile profile jobs n (.ok sims) draws).length
        = min n (validJobs jobs).length ∧
    List.Pairwise scoreGE (matchJobsToProfile profile jobs n (.ok sims) draws) ∧
    ∀ q : ℚ, ∃ k,
      (matchJobsToProfile profile jobs n (.ok sims) draws).filter
          (fun j => decide (j.match_score = q)) =
        ((scoreJobs (validJobs jobs) sims).filter
          (fun j => decide (j.match_score = q))).take k := by
  have hjobs : jobs ≠ [] := by
    intro h
    exact hv (by simp [validJobs, h])
  have h1 : ¬(profile = "" ∨ jobs.isEmpty = true) := by
    rw [listIsEmptyIff]
    tauto
  have h2 : ¬((validJobs jobs).isEmpty = true) := by
    rw [listIsEmptyIff]
    exact hv
  have hres : matchJobsToProfile profile jobs n (.ok sims) draws
      = (sortDesc (scoreJobs (validJobs jobs) sims)).take n := by
    unfold matchJobsToProfile
    rw [if_neg h1, if_neg h2]
  refine ⟨?_, ?_, ?_⟩
  · rw [hres, List.length_take, length_sortDesc, length_scoreJobs, hlen, min_self]
  · rw [hres]
    exact (pairwise_sortDesc _).sublist (List.take_sublist n _)
  · intro q
    obtain ⟨k, hk⟩ :=
      filter_take (fun j => decide (j.match_score = q))
        (sortDesc (scoreJobs (validJobs jobs) sims)) n
    exact ⟨k, by rw [hres, hk, filter_sortDesc]⟩

/-- C1 witness: the theorem applied at a concrete profile, posting pair and
similarity row. -/
theorem c1_witness :
    ("x" : String) ≠ "" ∧ validJobs [jobA, jobB] ≠ [] ∧
      [(1:ℚ)/2, 1/2].length = (validJobs [jobA, jobB]).length ∧
      ((matchJobsToProfile "x" [jobA, jobB] 5 (.ok [1/2, 1/2]) []).length
          = min 5 (validJobs [jobA, jobB]).length ∧
        List.Pairwise scoreGE (matchJobsToProfile "x" [jobA, jobB] 5 (.ok [1/2, 1/2]) []) ∧
        ∀ q : ℚ, ∃ k,
          (matchJobsToProfile "x" [jobA, jobB] 5 (.ok [1/2, 1/2]) []).filter
              (fun j => decide (j.match_score = q)) =
            ((scoreJobs (validJobs [jobA, jobB]) [1/2, 1/2]).filter
              (fun j => decide (j.match_score = q))).take k) :=
  ⟨by decide, by decide, by decide,
    c1_ranker_count_sorted_stable "x" [jobA, jobB] 5 [1/2, 1/2] []
      (by decide) (by decide) (by decide)⟩

/-- C2: for every profile, posting list, requested count, vectorization
outcome and fallback draw stream, `_match_jobs_to_profile` ends in one of
its three normal outcomes — the empty list (a guard fired), the TF-IDF
ranking, or, when vectorization raised, the fallback ranking.  The caught
exception is never re-raised: the result is always a list. -/
theorem c2_ranking_never_raises (profile : String) (jobs : List Job) (n : ℕ)
    (vec : Except Unit (List ℚ)) (draws : List ℚ) :
    (matchJobsToProfile profile jobs n vec draws = [] ∧
        (profile = "" ∨ jobs = [] ∨ validJobs jobs = [])) ∨
    (∃ sims, vec = .ok sims ∧
        matchJobsToProfile profile jobs n vec draws =
          (sortDesc (scoreJobs (validJobs jobs) sims)).take n) ∨
    (∃ e, vec = .error e ∧
        matchJobsToProfile profile jobs n vec draws =
          fallbackJobRanking (validJobs jobs) n draws) := by
  by_cases h1 : profile = "" ∨ jobs.isEmpty = true
  · refine Or.inl ⟨by unfold matchJobsToProfile; rw [if_pos h1], ?_⟩
    rcases h1 with h | h
    · exact Or.inl h
    · exact Or.inr (Or.inl ((listIsEmptyIff jobs).mp h))
  · by_cases h2 : (validJobs jobs).isEmpty = true
    · refine Or.inl ⟨?_, Or.inr (Or.inr ((listIsEmptyIff _).mp h2))⟩
      unfold matchJobsToProfile
      rw [if_neg h1, if_pos h2]
    · cases vec with
      | ok sims =>
          refine Or.inr (Or.inl ⟨sims, rfl, ?_⟩)
          unfold matchJobsToProfile
          rw [if_neg h1, if_neg h2]
      | error e =>
          refine Or.inr (Or.inr ⟨e, rfl, ?_⟩)
          unfold matchJobsToProfile
          rw [if_neg h1, if_neg h2]

/-- C3: every `match_score` the engine attaches is a (finite) rational in
`[0, 100]`, on all three scoring paths: the TF-IDF path (cosine
similarities of TF-IDF vectors are non-negative), the fallback path (the
draws come from `random.uniform(70.0, 95.0)`), and the `search_jobs`
term-counting path (unconditionally). -/
theorem c3_match_score_bounds (profile : String) (jobs : List Job) (n : ℕ)
    (sims draws : List ℚ) (terms : List String) (fjobs : List Job)
    (hsims : ∀ s ∈ sims, 0 ≤ s) (hdraws : ∀ r ∈ draws, 70 ≤ r ∧ r ≤ 95) :
    (∀ j ∈ matchJobsToProfile profile jobs n (.ok sims) draws,
        0 ≤ j.match_score ∧ j.match_score ≤ 100) ∧
    (∀ j ∈ fallbackJobRanking jobs n draws,
        0 ≤ j.match_score ∧ j.match_score ≤ 100) ∧
    (∀ j ∈ sortDesc (assignSearchScores terms fjobs),
        0 ≤ j.match_score ∧ j.match_score ≤ 100) := by
  refine ⟨?_, ?_, ?_⟩
  · intro j hj
    unfold matchJobsToProfile at hj
    split_ifs at hj with h1 h2
    · simp at hj
    · simp at hj
    · have hj' : j ∈ sortDesc (scoreJobs (validJobs jobs) sims) :=
        List.take_subset n _ hj
      rw [mem_sortDesc] at hj'
      obtain ⟨s, hs, hscore⟩ := mem_scoreJobs j _ _ hj'
      have hs0 : (0 : ℚ) ≤ s * 100 := mul_nonneg (hsims s hs) (by norm_num)
      constructor
      · rw [hscore]
        refine le_min ?_ (by norm_num)
        have h0 := le_round1 0 (s * 100) (by exact_mod_cast hs0)
        exact_mod_cast h0
      · rw [hscore]
        exact min_le_right _ _
  · intro j hj
    unfold fallbackJobRanking at hj
    have hj' := List.take_subset n _ hj
    rw [mem_sortDesc] at hj'
    obtain ⟨r, hr, hscore⟩ := mem_fallbackScored j _ _ hj'
    obtain ⟨hr70, hr95⟩ := hdraws r hr
    constructor
    · rw [hscore]
      have h70 := le_round1 70 r (by exact_mod_cast hr70)
      have : ((70 : ℤ) : ℚ) = (70 : ℚ) := by norm_num
      linarith [this ▸ h70]
    · rw [hscore]
      have h95 := round1_le 95 r (by exact_mod_cast hr95)
      have : ((95 : ℤ) : ℚ) = (95 : ℚ) := by norm_num
      linarith [this ▸ h95]
  · intro j hj
    rw [mem_sortDesc] at hj
    unfold assignSearchScores at hj
    obtain ⟨x, hx, rfl⟩ := List.mem_map.mp hj
    constructor
    · exact Nat.cast_nonneg _
    · show ((min (searchScore terms x * 10) 100 : ℕ) : ℚ) ≤ 100
      have : (min (searchScore terms x * 10) 100 : ℕ) ≤ 100 := min_le_right _ _
      exact_mod_cast this

/-- C3 witness: the theorem applied at concrete similarities, draws and
search terms. -/
theorem c3_witness :
    (∀ s ∈ [(1:ℚ)/2], 0 ≤ s) ∧ (∀ r ∈ [(80:ℚ)], 70 ≤ r ∧ r ≤ 95) ∧
      ((∀ j ∈ matchJobsToProfile "x" [jobA] 1 (.ok [(1:ℚ)/2]) [(80:ℚ)],
          0 ≤ j.match_score ∧ j.match_score ≤ 100) ∧
        (∀ j ∈ fallbackJobRanking [jobA] 1 [(80:ℚ)],
          0 ≤ j.match_score ∧ j.match_score ≤ 100) ∧
        (∀ j ∈ sortDesc (assignSearchScores ["python"] [jobA]),
          0 ≤ j.match_score ∧ j.match_score ≤ 100)) :=
  ⟨by decide, by decide,
    c3_match_score_bounds "x" [jobA] 1 [(1:ℚ)/2] [(80:ℚ)] ["python"] [jobA]
      (by decide) (by decide)⟩

/-! ## Dictionary / heap helper lemmas -/

theorem find_in_updated (c : List (String × ℕ)) (k : String) (r : ℕ)
    (h : c.any (fun p => p.1 == k) = true) :
    (c.map fun p => if p.1 == k then (k, r) else p).find? (fun p => p.1 == k)
      = some (k, r) := by
  induction c with
  | nil => simp at h
  | cons hd tl ih =>
      by_cases hk : hd.1 = k
      · have hbeq : (hd.1 == k) = true := beq_iff_eq.mpr hk
        simp [List.find?, hbeq]
      · have hbeq : (hd.1 == k) = false := beq_eq_false_iff_ne.mpr hk
        have h' : tl.any (fun p => p.1 == k) = true := by
          simpa [List.any_cons, hbeq] using h
        have hifneg : (if (hd.1 == k) = true then (k, r) else hd) = hd := by
          simp [hbeq]
        simp only [List.map_cons, hifneg]
        rw [List.find?_cons_of_neg _ (by simp [hbeq])]
        exact ih h'

theorem find_none_of_any_false (c : List (String × ℕ)) (k : String)
    (h : c.any (fun p => p.1 == k) = false) :
    c.find? (fun p => p.1 == k) = none := by
  induction c with
  | nil => rfl
  | cons hd tl ih =>
      have h1 : (hd.1 == k) = false := by
        by_contra hc
        have : (hd.1 == k) = true := by
          cases hb : (hd.1 == k) <;> simp_all
        simp [List.any_cons, this] at h
      have h2 : tl.any (fun p => p.1 == k) = false := by
        simpa [List.any_cons, h1] using h
      simp [List.find?, h1, ih h2]

theorem find_append_fresh (c : List (String × ℕ)) (k : String) (r : ℕ)
    (h : c.find? (fun p => p.1 == k) = none) :
    (c ++ [(k, r)]).find? (fun p => p.1 == k) = some (k, r) := by
  induction c with
  | nil => simp [List.find?]
  | cons hd tl ih =>
      by_cases hk : (hd.1 == k) = true
      · simp [List.find?, hk] at h
      · have hk' : (hd.1 == k) = false := by
          cases hb : (hd.1 == k) <;> simp_all
        simp only [List.find?, hk'] at h
        simp only [List.cons_append, List.find?, hk']
        exact ih h

theorem lookupRef_setRef (c : List (String × ℕ)) (k : String) (r : ℕ) :
    lookupRef (setRef c k r) k = some r := by
  unfold setRef lookupRef
  by_cases h : c.any (fun p => p.1 == k) = true
  · rw [if_pos h, find_in_updated c k r h]
    rfl
  · rw [if_neg h]
    have hf : c.find? (fun p => p.1 == k) = none :=
      find_none_of_any_false c k (by cases hb : c.any (fun p => p.1 == k) <;> simp_all)
    rw [find_append_fresh c k r hf]
    rfl

theorem getD_concat_length {α : Type} (l : List α) (a d : α) :
    (l ++ [a]).getD l.length d = a := by
  induction l with
  | nil => rfl
  | cons hd tl ih => simp [ih]

theorem getD_set_self {α : Type} (l : List α) (i : ℕ) (a d : α)
    (h : i < l.length) : (l.set i a).getD i d = a := by
  induction l generalizing i with
  | nil => simp at h
  | cons hd tl ih =>
      cases i with
      | zero => rfl
      | succ m => simpa using ih m (by simpa using h)

theorem jobTypeCount_singleton (j : Job) (kws : List String) :
    jobTypeCount [j] kws =
      if kws.any (fun kw => containsSub (lowerTitleDesc j) kw) then 1 else 0 := by
  unfold jobTypeCount
  by_cases h : kws.any (fun kw => containsSub (lowerTitleDesc j) kw) = true <;>
    simp [List.filter_cons, h]

theorem eduKeyword_eq (edu : String) :
    eduKeyword edu =
      if 2 ≤ (pySplit (pyStrip edu)).length then
        [(pySplit (pyStrip edu)).headD ""]
      else [] := by
  by_cases h1 : edu = ""
  · subst h1
    decide
  · by_cases h2 : pyStrip edu = ""
    · rw [eduKeyword, if_neg h1, if_pos h2, h2]
      decide
    · rw [eduKeyword, if_neg h1, if_neg h2]
      cases hs : pySplit (pyStrip edu) with
      | nil => simp
      | cons p0 rest =>
          cases rest with
          | nil => simp
          | cons p1 rest2 => simp

theorem mem_eduKeywordsList (k : String) (l : List String) :
    k ∈ eduKeywordsList l ↔ ∃ e ∈ l, k ∈ eduKeyword e := by
  induction l with
  | nil => simp [eduKeywordsList]
  | cons e es ih => simp [eduKeywordsList, ih]

theorem eduKeywordsList_eq_nil (l : List String) :
    eduKeywordsList l = [] ↔ ∀ e ∈ l, eduKeyword e = [] := by
  induction l with
  | nil => simp [eduKeywordsList]
  | cons e es ih => simp [eduKeywordsList, ih]

/-! ## Claim theorems, continued -/

/-- C4 (code bug): the claim — and the repository's own test
`test_match_jobs_to_profile_empty_user_profile_uses_fallback` — say an
empty or whitespace-only profile routes to the randomized fallback.  The
code does neither: `if not user_profile or not jobs: return []` returns
the empty list for an empty profile, and a whitespace-only profile is
truthy, so it proceeds down the TF-IDF path (here with cosine similarity
`0`, giving score `0.0`).  The fallback on the same postings would have
been non-empty. -/
theorem c4_code_eval :
    matchJobsToProfile "" [jobA] 2 (.ok [(0:ℚ)]) [(80:ℚ)] = [] ∧
    (matchJobsToProfile "   " [jobA] 2 (.ok [(0:ℚ)]) [(80:ℚ)]).map
        (fun j => j.match_score) = [0] ∧
    fallbackJobRanking [jobA] 2 [(80:ℚ)] ≠ [] := by decide

/-- C5 (code bug): the claim — and the repository's tests, which assert
`50 <= match_score <= 70` on the fallback path — put the fallback band at
approximately 50–70.  The code draws `random.uniform(70.0, 95.0)`: with
the legitimate draw `80.0` the assigned score is `80.0`, outside the
claimed band. -/
theorem c5_code_eval :
    (fallbackJobRanking [jobA] 1 [(80:ℚ)]).map (fun j => j.match_score) = [80] ∧
    ¬((80:ℚ) ≤ 70) := by decide

/-- C6 counterexample: starting from a cache whose key `"k"` is bound to
the object at reference 0 holding `[jobA]`, the page-2 update binds `"k"`
to the *same* reference 0 while the object stored there changes to
`[jobA, jobB]` — the stored sequence is mutated in place, not replaced
wholesale by a new sequence. -/
theorem c6_counterexample :
    lookupRef (updateRecCache st0 "k" 2 false [jobB]).jobCache "k" = some 0 ∧
    heapGet (updateRecCache st0 "k" 2 false [jobB]) 0 = [jobA, jobB] ∧
    heapGet st0 0 = [jobA] ∧
    ([jobA] : List Job) ≠ [jobA, jobB] := by decide

/-- C6, amended: on page 1, a forced refresh, or a missing key, both cache
updates bind the key to a freshly allocated sequence; on a later page with
the key present (`get_job_recommendations` with `force_refresh` false, and
`search_jobs`), the stored sequence is mutated in place — the binding is
unchanged and the referenced object becomes the old sequence with the new
non-duplicate postings appended. -/
theorem c6_cache_update_amended (st : EngineState) (key : String) (page : ℕ)
    (force : Bool) (recs sortedJobs : List Job) (r : ℕ) :
    ((page = 1 ∨ force = true) →
      lookupRef (updateRecCache st key page force recs).jobCache key
          = some st.heap.length ∧
      heapGet (updateRecCache st key page force recs) st.heap.length = recs) ∧
    (page ≠ 1 → force = false → lookupRef st.jobCache key = some r →
      r < st.heap.length →
      (updateRecCache st key page force recs).jobCache = st.jobCache ∧
      heapGet (updateRecCache st key page force recs) r
          = appendDedup (heapGet st r) recs) ∧
    (page ≠ 1 → lookupRef st.jobCache key = some r → r < st.heap.length →
      (updateSearchCache st key page sortedJobs).jobCache = st.jobCache ∧
      heapGet (updateSearchCache st key page sortedJobs) r
          = appendDedup (heapGet st r) sortedJobs) := by
  refine ⟨?_, ?_, ?_⟩
  · intro h
    rw [updateRecCache, if_pos h]
    exact ⟨lookupRef_setRef _ _ _, getD_concat_length _ _ _⟩
  · intro hp hf hr hlt
    rw [updateRecCache, if_neg (by simp [hp, hf]), hr]
    exact ⟨rfl, getD_set_self _ _ _ _ hlt⟩
  · intro hp hr hlt
    rw [updateSearchCache, if_neg hp, hr]
    exact ⟨rfl, getD_set_self _ _ _ _ hlt⟩

/-- C6 amended witness: the in-place branch applied at the concrete
starting state of the counterexample. -/
theorem c6_witness :
    (2 ≠ 1) ∧ lookupRef st0.jobCache "k" = some 0 ∧ 0 < st0.heap.length ∧
      ((updateRecCache st0 "k" 2 false [jobB]).jobCache = st0.jobCache ∧
        heapGet (updateRecCache st0 "k" 2 false [jobB]) 0
          = appendDedup (heapGet st0 0) [jobB]) :=
  ⟨by decide, by decide, by decide,
    (c6_cache_update_amended st0 "k" 2 false [jobB] [] 0).2.1
      (by decide) rfl (by decide) (by decide)⟩

/-- C7 counterexample: a fetch that returned 1 item when
`recFetchLimit = 10` were requested still sets `has_more` to true —
refuting "true iff the last fetch returned at least as many items as were
requested". -/
theorem c7_counterexample :
    (updatePagination none 2 1).has_more = true ∧ ¬(recFetchLimit ≤ 1) := by
  decide

/-- C7, amended: `has_more` is set to true iff the last fetch returned at
least one item (`has_more = len(available_jobs) > 0`), regardless of how
many were requested. -/
theorem c7_has_more_amended (prior : Option PagInfo) (page fetched : ℕ) :
    (updatePagination prior page fetched).has_more = true ↔ 0 < fetched := by
  simp [updatePagination]

/-- C8 counterexample: with the single-word education entry `"BSc"` —
non-empty after trimming — the code yields the literal fallback
`["entry", "level", "job"]`, not the education-derived `["BSc"]`: the
`len(edu_parts) > 1` guard drops every single-word entry. -/
theorem c8_counterexample :
    fallbackSearchKeywords ["BSc"] = ["entry", "level", "job"] ∧
    "BSc" ∉ fallbackSearchKeywords ["BSc"] := by decide

/-- C8, amended: the fallback keywords are the first word of each
education entry that contains at least **two** whitespace-separated words
after trimming; when no entry contributes (even if education is
non-empty), the keywords are exactly `["entry", "level", "job"]`. -/
theorem c8_fallback_keywords_amended (education : List String) :
    ((∀ e ∈ education, (pySplit (pyStrip e)).length < 2) →
      fallbackSearchKeywords education = ["entry", "level", "job"]) ∧
    ((∃ e ∈ education, 2 ≤ (pySplit (pyStrip e)).length) →
      fallbackSearchKeywords education ≠ [] ∧
      fallbackSearchKeywords education = eduKeywordsList education ∧
      ∀ k ∈ fallbackSearchKeywords education, ∃ e ∈ education,
        2 ≤ (pySplit (pyStrip e)).length ∧ (pySplit (pyStrip e)).headD "" = k) := by
  constructor
  · intro h
    have hnil : eduKeywordsList education = [] := by
      rw [eduKeywordsList_eq_nil]
      intro e he
      rw [eduKeyword_eq, if_neg (by exact not_le.mpr (h e he))]
    rw [fallbackSearchKeywords, hnil]
    rfl
  · intro ⟨e, he, hlen⟩
    have hmem : (pySplit (pyStrip e)).headD "" ∈ eduKeywordsList education := by
      rw [mem_eduKeywordsList]
      exact ⟨e, he, by rw [eduKeyword_eq, if_pos hlen]; exact List.mem_singleton_self _⟩
    have hne : eduKeywordsList education ≠ [] := by
      intro h0
      rw [h0] at hmem
      simp at hmem
    have hfk : fallbackSearchKeywords education = eduKeywordsList education := by
      rw [fallbackSearchKeywords, if_neg (by simpa [listIsEmptyIff] using hne)]
    refine ⟨by rw [hfk]; exact hne, hfk, ?_⟩
    intro k hk
    rw [hfk, mem_eduKeywordsList] at hk
    obtain ⟨e', he', hk'⟩ := hk
    rw [eduKeyword_eq] at hk'
    by_cases hl : 2 ≤ (pySplit (pyStrip e')).length
    · rw [if_pos hl] at hk'
      exact ⟨e', he', hl, (List.mem_singleton.mp hk').symm⟩
    · rw [if_neg hl] at hk'
      simp at hk'

/-- C8 amended witness: the education-derived branch applied to a
two-word entry. -/
theorem c8_witness :
    (∃ e ∈ ["BSc Computer Science"], 2 ≤ (pySplit (pyStrip e)).length) ∧
      (fallbackSearchKeywords ["BSc Computer Science"] ≠ [] ∧
        fallbackSearchKeywords ["BSc Computer Science"]
            = eduKeywordsList ["BSc Computer Science"] ∧
        ∀ k ∈ fallbackSearchKeywords ["BSc Computer Science"],
          ∃ e ∈ ["BSc Computer Science"],
            2 ≤ (pySplit (pyStrip e)).length ∧ (pySplit (pyStrip e)).headD "" = k) :=
  ⟨by decide, (c8_fallback_keywords_amended ["BSc Computer Science"]).2 (by decide)⟩

/-- C9 counterexample: the posting titled "Permanent contract intern role"
increments **three** employment-type groups (Full-time via "permanent",
Contract via "contract", Internship via "intern") — the `break` only
stops the scan of one group's keywords, not the scan of the groups, so a
posting is not counted for at most one group. -/
theorem c9_counterexample :
    jobTypeCounts [jobFT] =
      [("Full-time", 1), ("Part-time", 0), ("Contract", 1),
       ("Freelance", 0), ("Internship", 1)] := by decide

/-- C9, amended: within each keyword group a posting is counted at most
once (the `break` de-duplicates keywords of the same group), and group
counts are additive over postings — but a posting matching several groups
increments every matching group's count. -/
theorem c9_job_type_counts_amended (kws : List String) (jobs : List Job) :
    jobTypeCount jobs kws = (jobs.map fun j => jobTypeCount [j] kws).sum ∧
    ∀ j : Job, jobTypeCount [j] kws ≤ 1 := by
  constructor
  · induction jobs with
    | nil => simp [jobTypeCount]
    | cons j js ih =>
        rw [List.map_cons, List.sum_cons, ← ih, jobTypeCount_singleton]
        unfold jobTypeCount
        by_cases h : kws.any (fun kw => containsSub (lowerTitleDesc j) kw) = true <;>
          simp [List.filter_cons, h] <;> omega
  · intro j
    rw [jobTypeCount_singleton]
    split <;> simp

/-- C10: on the cache-hit path (`fetch_more` false, page past the first,
key present, at least `page * size` postings cached) `search_jobs` returns
the entire accumulated cached list, not a page slice of at most `size`
items. -/
theorem c10_search_returns_full_cache (cache : List (String × List Job))
    (k query : String) (page size : ℕ) (fetched cached : List Job)
    (hpage : 1 < page) (hc : lookupList cache k = some cached)
    (hlen : page * size ≤ cached.length) :
    searchJobs cache (some k) query page size false fetched = cached := by
  have hne : page ≠ 1 := by omega
  simp [searchJobs, hne, hc, hlen]

/-- C10 witness: a two-entry cached list is returned whole for
`page = 2, size = 1`. -/
theorem c10_witness :
    1 < 2 ∧ lookupList [("k", [jobA, jobB])] "k" = some [jobA, jobB] ∧
      2 * 1 ≤ ([jobA, jobB] : List Job).length ∧
      searchJobs [("k", [jobA, jobB])] (some "k") "python" 2 1 false []
          = [jobA, jobB] :=
  ⟨by decide, by decide, by decide,
    c10_search_returns_full_cache [("k", [jobA, jobB])] "k" "python" 2 1 []
      [jobA, jobB] (by decide) (by decide) (by decide)⟩

end RecEngine
